import Mathlib

/-!
# Verification of the MiniCoin ledger core (`src/main.py`)

Shallow embedding of the MiniCoin API's core state and operations:
blocks, the hash-linked chain, the user store, the milestone policy
(`auto_block_if_needed`), and the three mutating endpoints
(`join_user`, `buy_coins`, `send_coins`).

Modelling conventions:
* `time.time()` results are modelled as `Nat` timestamps passed as an
  explicit argument to each operation (each operation uses a single
  timestamp for all the `time.time()` calls it performs; no property
  below depends on distinguishing them).
* SHA-256 is modelled as an ideal (collision-free) hash: block hashes
  live in an inductive type `HashVal` whose `node` constructor is
  injective in all the hashed fields, and the 16-character address
  digest `sha256(f"{username}{time}")[:16]` is modelled by the
  injective tagged encoding `derive_address`.
* The Python dict `users` is modelled as an insertion-ordered
  association list, matching dict iteration order and the in-place
  update semantics of `users[k] = v`.
* Persistence is implicit: the model state is the persisted state
  (every mutation in the source is followed by `save_users` /
  `save_chain` except where an exception aborts the request, which the
  model reproduces explicitly in `send_coins`).
-/

/-- A transaction record, as built at `main.py:172` (buy) and
`main.py:194` (send). -/
inductive Tx where
  | buy (user : String) (amount : Int) (time : Nat)
  | send (user : String) (toName : String) (amount : Int) (time : Nat)
deriving DecidableEq, Repr

/-- Values of the hash function. `raw` covers literal strings stored in
hash position (the genesis `prev_hash` `"0"`, or arbitrary strings found
in a persisted file); `node` is the ideal-hash image of a block's
`(index, prev_hash, timestamp, data)`, injective in all fields
(collision-freeness of SHA-256 idealized). -/
inductive HashVal where
  | raw (s : String)
  | node (index : Nat) (prevHash : HashVal) (timestamp : Nat) (data : List Tx)
deriving DecidableEq, Repr

/-- `Block.compute_hash` (`main.py:26-28`): the hash of the block
string `f"{index}{prev_hash}{timestamp}{data}"`. -/
def compute_hash (index : Nat) (prevHash : HashVal) (timestamp : Nat)
    (data : List Tx) : HashVal :=
  HashVal.node index prevHash timestamp data

/-- A block (`main.py:18-24`): `hash` is set by the constructor and never
recomputed afterwards, even when `data` is later mutated. -/
structure Block where
  index : Nat
  prev_hash : HashVal
  timestamp : Nat
  data : List Tx
  hash : HashVal
deriving DecidableEq, Repr

/-- `Block.__init__`: builds a block and computes its hash from the
fields it is given. -/
def mkBlock (index : Nat) (prev : HashVal) (t : Nat) (data : List Tx) : Block :=
  { index := index, prev_hash := prev, timestamp := t, data := data,
    hash := compute_hash index prev t data }

/-- An account record `{"address": ..., "coins": ...}` (`main.py:96-99`). -/
structure Account where
  address : String
  coins : Int
deriving DecidableEq, Repr

/-- The user store: the `users.json` dict, as an insertion-ordered
association list. -/
abbrev Users := List (String × Account)

/-- Dict lookup `users[name]` / `name in users` (first, i.e. unique,
binding). -/
def usersLookup (us : Users) (n : String) : Option Account :=
  match us with
  | [] => none
  | (k, a) :: rest => if k = n then some a else usersLookup rest n

/-- `name in users`. -/
def usersContains (us : Users) (n : String) : Bool :=
  (usersLookup us n).isSome

/-- Dict assignment `users[name] = acct`: in-place update of an existing
binding (keeping its position), else append. -/
def usersSet (us : Users) (n : String) (a : Account) : Users :=
  match us with
  | [] => [(n, a)]
  | (k, b) :: rest =>
    if k = n then (k, a) :: rest else (k, b) :: usersSet rest n a

/-- `users[name]["coins"] += d` (no-op when the key is absent; every call
site in the source guarantees presence or is modelled as a crash). -/
def usersAdjust (us : Users) (n : String) (d : Int) : Users :=
  match us with
  | [] => []
  | (k, a) :: rest =>
    if k = n then (k, { a with coins := a.coins + d }) :: rest
    else (k, a) :: usersAdjust rest n d

/-- Balance of `n` in the store, `0` when absent. -/
def bal (us : Users) (n : String) : Int :=
  match usersLookup us n with
  | none => 0
  | some a => a.coins

/-- `sum(user["coins"] for user in users.values())` (`main.py:76`). -/
def usersTotal (us : Users) : Int :=
  (us.map (fun p => p.2.coins)).sum

/-- Model of the address digest
`hashlib.sha256(f"{username}{time.time()}".encode()).hexdigest()[:16]`
(`main.py:97`): an injective encoding standing in for the ideal hash. -/
def derive_address (username : String) (t : Nat) : String :=
  "@" ++ username ++ "#" ++ toString t

/-- `get_or_create_user` (`main.py:93-101`): returns the (existing or
fresh) account and the resulting (persisted) store. -/
def get_or_create_user (us : Users) (username : String) (t : Nat) :
    Account × Users :=
  match usersLookup us username with
  | some a => (a, us)
  | none =>
    let a : Account := { address := derive_address username t, coins := 0 }
    (a, usersSet us username a)

/-- `resolve_user_by_address` (`main.py:103-108`): first user (in dict
order) whose address equals `addr`. -/
def resolve_user_by_address (us : Users) (addr : String) : Option String :=
  match us with
  | [] => none
  | (k, a) :: rest =>
    if a.address = addr then some k else resolve_user_by_address rest addr

/-- The full service state: persisted `users.json` and the block chain. -/
structure ServerState where
  users : Users
  chain : List Block
deriving DecidableEq, Repr

/-- Modify the last block of the chain, `bc.chain[-1]` (identity on an
empty chain, which no reachable state has). -/
def modifyLast (f : Block → Block) : List Block → List Block
  | [] => []
  | [b] => [f b]
  | b :: rest => b :: modifyLast f rest

/-- Hash of the chain's last block, `self.chain[-1].hash`. -/
def lastHash (c : List Block) : HashVal :=
  match c.getLast? with
  | none => HashVal.raw ""
  | some b => b.hash

/-- `Blockchain.add_block` (`main.py:49-53`). -/
def add_block (c : List Block) (data : List Tx) (t : Nat) : List Block :=
  c ++ [mkBlock c.length (lastHash c) t data]

/-- `n` iterations of the `while` body of `auto_block_if_needed`, each
appending one empty block. -/
def appendBlocks (n : Nat) (c : List Block) (t : Nat) : List Block :=
  match n with
  | 0 => c
  | n + 1 => appendBlocks n (add_block c [] t) t

/-- `Blockchain.auto_block_if_needed` (`main.py:74-79`):
`expected_blocks = floor(total / 1000)`; the `while` loop runs while
`len(chain) - 1 < expected_blocks`, so it appends exactly
`max 0 (expected_blocks + 1 - len(chain))` empty blocks. `floor` on a
possibly negative total is Python flooring division, i.e. `Int.fdiv`. -/
def auto_block_if_needed (s : ServerState) (t : Nat) : ServerState :=
  let total := usersTotal s.users
  let expected := Int.fdiv total 1000
  let need := (expected + 1 - (s.chain.length : Int)).toNat
  { s with chain := appendBlocks need s.chain t }

/-- The genesis chain built by `create_genesis_block` (`main.py:44-47`). -/
def genesisChain (t : Nat) : List Block :=
  [mkBlock 0 (HashVal.raw "0") t []]

/-- Fresh startup state: no `users.json`, no `blockchain.json`, so
`load_users` returns `{}` and `load_chain` creates the genesis block. -/
def initState (t : Nat) : ServerState :=
  { users := [], chain := genesisChain t }

/-- `join_user` (`main.py:152-156`). -/
def join_user (s : ServerState) (username : String) (t : Nat) : ServerState :=
  { s with users := (get_or_create_user s.users username t).2 }

/-- `buy_coins` (`main.py:166-177`): no validation of `amount`; the
account is created if needed, `amount` (of either sign) is added, a buy
transaction is appended to the tail block's data (without recomputing
its hash), and the milestone policy runs. -/
def buy_coins (s : ServerState) (username : String) (amount : Int) (t : Nat) :
    ServerState :=
  let users1 := (get_or_create_user s.users username t).2
  let users2 := usersAdjust users1 username amount
  let tx := Tx.buy username amount t
  let chain1 := modifyLast (fun b => { b with data := b.data ++ [tx] }) s.chain
  auto_block_if_needed { users := users2, chain := chain1 } t

/-- Outcome of a `send` request: `ok` (the success message),
`insufficientBalance` (the `{"error": "Insufficient balance"}` response,
`main.py:186`), or `crash` (the `KeyError` raised at `main.py:195` when
`req.from_user` is missing from the stale local `users` dict — the
request aborts with nothing further persisted). -/
inductive ApiResult where
  | ok
  | insufficientBalance
  | crash
deriving DecidableEq, Repr

/-- `send_coins` (`main.py:179-201`). Subtleties reproduced from the
source: the local `users` dict is loaded (line 182) *before*
`get_or_create_user` re-loads, mutates and saves the store (line 183),
so the remainder of the handler operates on the stale snapshot;
`resolve_user_by_address` re-loads the store itself (line 104), hence
sees the freshly created sender; Python's `if not receiver_name` treats
the empty string like `None`; creating the synthesized receiver
`user_<to[:6]>` overwrites any existing account of that name. -/
def send_coins (s : ServerState) (from_u to_a : String) (amount : Int) (t : Nat) :
    ApiResult × ServerState :=
  let users0 := s.users
  let gc := get_or_create_user s.users from_u t
  let sender := gc.1
  let users1 := gc.2
  if sender.coins < amount then
    (ApiResult.insufficientBalance, { s with users := users1 })
  else
    let rn0 : Option String :=
      if usersContains users0 to_a then some to_a
      else resolve_user_by_address users1 to_a
    let needSynth : Bool :=
      match rn0 with
      | none => true
      | some n => n = ""
    let rname : String :=
      if needSynth then "user_" ++ to_a.take 6 else rn0.getD ""
    let usersA : Users :=
      if needSynth then usersSet users0 rname { address := to_a, coins := 0 }
      else users0
    if usersContains usersA from_u then
      let usersB := usersAdjust usersA from_u (-amount)
      let usersC := usersAdjust usersB rname amount
      let tx := Tx.send from_u rname amount t
      let chain1 :=
        modifyLast (fun b => { b with data := b.data ++ [tx] }) s.chain
      (ApiResult.ok, auto_block_if_needed { users := usersC, chain := chain1 } t)
    else
      (ApiResult.crash, { s with users := users1 })

/-- One external operation against the service (the timestamp argument
stands for the wall-clock reads the handler performs). `seal` is a bare
invocation of the milestone policy. -/
inductive Op where
  | join (u : String) (t : Nat)
  | buy (u : String) (a : Int) (t : Nat)
  | send (f to_a : String) (a : Int) (t : Nat)
  | policy (t : Nat)
deriving DecidableEq, Repr

/-- Apply one operation to the state. -/
def step (s : ServerState) : Op → ServerState
  | Op.join u t => join_user s u t
  | Op.buy u a t => buy_coins s u a t
  | Op.send f to_a a t => (send_coins s f to_a a t).2
  | Op.policy t => auto_block_if_needed s t

/-- Run a sequence of operations from the fresh startup state with
genesis timestamp `t0`. -/
def run (t0 : Nat) (ops : List Op) : ServerState :=
  ops.foldl step (initState t0)

/-- Reachable states: everything producible by some operation sequence
from a fresh start. -/
def Reachable (s : ServerState) : Prop :=
  ∃ t0 ops, s = run t0 ops

/-- Boolean chain linkage: every non-genesis block's `prev_hash` equals
its predecessor's stored `hash`. -/
def chainLinkedB : List Block → Bool
  | [] => true
  | [_] => true
  | a :: b :: rest => (b.prev_hash == a.hash) && chainLinkedB (b :: rest)

/-- Every block's stored hash is the hash of its own creation-time
fields, with the empty transaction list every block is created with. -/
def blocksSealedEmpty (c : List Block) : Bool :=
  c.all (fun b => b.hash == compute_hash b.index b.prev_hash b.timestamp [])

/-- Every block's stored hash matches its *current* fields (the spec's
`chain[i].hash == HashLink(chain[i])`). -/
def blocksHashCurrent (c : List Block) : Bool :=
  c.all (fun b => b.hash == compute_hash b.index b.prev_hash b.timestamp b.data)

/-- A block record as persisted in `blockchain.json` by `to_dict`
(`main.py:30-37`): all five fields, including the stored hash. -/
structure BlockRec where
  index : Nat
  prev_hash : HashVal
  timestamp : Nat
  data : List Tx
  hash : HashVal
deriving DecidableEq, Repr

/-- `Blockchain.save_chain` (`main.py:55-57`): serialize every block via
`to_dict`. -/
def save_chain (c : List Block) : List BlockRec :=
  c.map (fun b =>
    { index := b.index, prev_hash := b.prev_hash, timestamp := b.timestamp,
      data := b.data, hash := b.hash })

/-- `Blockchain.load_chain` (`main.py:59-72`). The argument is the parse
outcome of `blockchain.json`: `none` when the file is absent or fails to
parse into well-formed records (the `except` branch deletes the file and
creates a fresh genesis block with the current time `t`); `some recs`
when parsing succeeds, in which case every block is rebuilt through the
`Block` constructor from `index`, `prev_hash`, `timestamp` and `data` —
recomputing the hash and ignoring the stored `hash` field entirely. -/
def load_chain (file : Option (List BlockRec)) (t : Nat) : List Block :=
  match file with
  | none => genesisChain t
  | some recs => recs.map (fun d => mkBlock d.index d.prev_hash d.timestamp d.data)

/-- Linkage check on persisted records. -/
def recsLinked : List BlockRec → Bool
  | [] => true
  | [_] => true
  | a :: b :: rest => (b.prev_hash == a.hash) && recsLinked (b :: rest)

/-- Modelled from the spec: `verifyIntegrity` (spec §4.3, §3, Scenario D)
— the integrity check the spec requires at load time but that
`src/main.py` does not implement anywhere: "recomputes every block's
hash and checks linkage". Returns `true` iff every stored record's
`hash` equals the hash recomputed from its own fields and consecutive
records satisfy the `prev_hash` linkage. -/
def verifyIntegrity (recs : List BlockRec) : Bool :=
  recs.all (fun d => d.hash == compute_hash d.index d.prev_hash d.timestamp d.data)
    && recsLinked recs

/-- A block's fields other than its stored hash (what `load_chain`
actually consumes). -/
def blockFields (b : Block) : Nat × HashVal × Nat × List Tx :=
  (b.index, b.prev_hash, b.timestamp, b.data)

/-- A record's fields other than its stored hash. -/
def recFields (d : BlockRec) : Nat × HashVal × Nat × List Tx :=
  (d.index, d.prev_hash, d.timestamp, d.data)

/-- A function on blocks that only touches the `data` field. -/
def DataOnly (f : Block → Block) : Prop :=
  ∀ b, (f b).index = b.index ∧ (f b).prev_hash = b.prev_hash ∧
    (f b).timestamp = b.timestamp ∧ (f b).hash = b.hash

/-- The chain shape every reachable state maintains: nonempty, linked,
and every block's hash is the hash of its creation-time fields (all
blocks are created with an empty transaction list). -/
def ChainInv (c : List Block) : Prop :=
  c ≠ [] ∧ chainLinkedB c = true ∧ blocksSealedEmpty c = true

/-- Every stored account balance is non-negative. -/
def AllNonneg (us : Users) : Prop := ∀ p ∈ us, 0 ≤ p.2.coins

/-- The receiver-name resolution of `send_coins` (`main.py:188`):
`req.to if req.to in users else resolve_user_by_address(req.to)`. The
membership test runs against the stale snapshot taken at `main.py:182`;
`resolve_user_by_address` re-loads the store (`main.py:104`) and hence
sees the sender that `get_or_create_user` may just have created. -/
def sendRn0 (s : ServerState) (f to_a : String) (t : Nat) : Option String :=
  if usersContains s.users to_a then some to_a
  else resolve_user_by_address (get_or_create_user s.users f t).2 to_a

/-- Python's `if not receiver_name:` (`main.py:190`): true for `None`
and for the empty string. -/
def sendNeedSynth (s : ServerState) (f to_a : String) (t : Nat) : Bool :=
  match sendRn0 s f to_a t with
  | none => true
  | some n => n = ""

/-- The final receiver name used by `send_coins`: the resolved name, or
the synthesized `f"user_\x7breq.to[:6]\x7d"` (`main.py:191`). -/
def sendRname (s : ServerState) (f to_a : String) (t : Nat) : String :=
  if sendNeedSynth s f to_a t then "user_" ++ to_a.take 6
  else (sendRn0 s f to_a t).getD ""

/-- The stale `users` dict after the synthesized-receiver insertion
`users[receiver_name] = {"address": req.to, "coins": 0}` (`main.py:192`),
which overwrites any existing account under that name. -/
def sendUsersA (s : ServerState) (f to_a : String) (t : Nat) : Users :=
  if sendNeedSynth s f to_a t
  then usersSet s.users (sendRname s f to_a t) { address := to_a, coins := 0 }
  else s.users

/-- Sum of the amounts of all mint (`buy`) operations in a trace. -/
def mintSum : List Op → Int
  | [] => 0
  | Op.buy _ a _ :: rest => a + mintSum rest
  | _ :: rest => mintSum rest

/-- Every `buy` and `send` amount in the trace is positive (the
validation the source never performs). -/
def posAmounts : List Op → Bool
  | [] => true
  | Op.buy _ a _ :: rest => decide (0 < a) && posAmounts rest
  | Op.send _ _ a _ :: rest => decide (0 < a) && posAmounts rest
  | _ :: rest => posAmounts rest

/-- The trace contains only mints (`buy`) and transfers (`send`). -/
def onlyBuySend : List Op → Bool
  | [] => true
  | Op.buy _ _ _ :: rest => onlyBuySend rest
  | Op.send _ _ _ _ :: rest => onlyBuySend rest
  | _ :: _ => false

/-- No-clobber condition for one operation in state `s`: a `send` that
synthesizes its receiver name must not collide with an existing
account (`users[receiver_name] = ...` at `main.py:192` would reset that
account's balance to 0). All other operations are unconditionally ok. -/
def stepOk (s : ServerState) : Op → Bool
  | Op.send f to_a a t =>
    if (get_or_create_user s.users f t).1.coins < a then true
    else if sendNeedSynth s f to_a t
    then !(usersContains s.users (sendRname s f to_a t))
    else true
  | _ => true

/-- The amount a single operation mints (`buy` amount, else 0). -/
def mintAmt : Op → Int
  | Op.buy _ a _ => a
  | _ => 0

/-- `stepOk` holds at every step of the trace. -/
def traceOkFrom (s : ServerState) : List Op → Bool
  | [] => true
  | op :: rest => stepOk s op && traceOkFrom (step s op) rest

/-- `stepOk` holds at every step of the trace, from the fresh state. -/
def traceOk (t0 : Nat) (ops : List Op) : Bool :=
  traceOkFrom (initState t0) ops

/-- A persisted chain whose second record has a broken `prev_hash` link
and a stored hash that does not match its fields. -/
def tamperedRecs : List BlockRec :=
  [{ index := 0, prev_hash := HashVal.raw "0", timestamp := 0, data := [],
     hash := compute_hash 0 (HashVal.raw "0") 0 [] },
   { index := 1, prev_hash := HashVal.raw "bogus", timestamp := 1, data := [],
     hash := HashVal.raw "junk" }]

/-! ## User-store lemmas -/

theorem usersLookup_set_self (us : Users) (n : String) (a : Account) :
    usersLookup (usersSet us n a) n = some a := by
  induction us with
  | nil => simp [usersSet, usersLookup]
  | cons p rest ih =>
    obtain ⟨k, b⟩ := p
    by_cases h : k = n <;> simp [usersSet, usersLookup, h, ih]

theorem usersLookup_set_ne (us : Users) (n m : String) (a : Account)
    (h : m ≠ n) : usersLookup (usersSet us n a) m = usersLookup us m := by
  have hnm : ¬ n = m := fun hh => h hh.symm
  induction us with
  | nil => simp [usersSet, usersLookup, hnm]
  | cons p rest ih =>
    obtain ⟨k, b⟩ := p
    by_cases hk : k = n
    · subst hk
      simp [usersSet, usersLookup, hnm]
    · simp only [usersSet, if_neg hk, usersLookup]
      by_cases hm : k = m
      · simp [hm]
      · simp [hm, ih]

theorem usersLookup_adjust_self (us : Users) (n : String) (d : Int) :
    usersLookup (usersAdjust us n d) n
      = (usersLookup us n).map (fun a => { a with coins := a.coins + d }) := by
  induction us with
  | nil => simp [usersAdjust, usersLookup]
  | cons p rest ih =>
    obtain ⟨k, b⟩ := p
    by_cases h : k = n <;> simp [usersAdjust, usersLookup, h, ih]

theorem usersLookup_adjust_ne (us : Users) (n m : String) (d : Int)
    (h : m ≠ n) : usersLookup (usersAdjust us n d) m = usersLookup us m := by
  have hnm : ¬ n = m := fun hh => h hh.symm
  induction us with
  | nil => simp [usersAdjust]
  | cons p rest ih =>
    obtain ⟨k, b⟩ := p
    by_cases hk : k = n
    · subst hk
      simp [usersAdjust, usersLookup, hnm]
    · simp only [usersAdjust, if_neg hk, usersLookup]
      by_cases hm : k = m
      · simp [hm]
      · simp [hm, ih]

theorem usersAdjust_adjust_same (us : Users) (n : String) (d e : Int) :
    usersAdjust (usersAdjust us n d) n e = usersAdjust us n (d + e) := by
  induction us with
  | nil => simp [usersAdjust]
  | cons p rest ih =>
    obtain ⟨k, b⟩ := p
    by_cases h : k = n <;> simp [usersAdjust, h, ih, add_assoc]

theorem usersAdjust_zero (us : Users) (n : String) :
    usersAdjust us n 0 = us := by
  induction us with
  | nil => simp [usersAdjust]
  | cons p rest ih =>
    obtain ⟨k, b⟩ := p
    by_cases h : k = n <;> simp [usersAdjust, h, ih]

theorem usersAdjust_of_absent (us : Users) (n : String) (d : Int)
    (h : usersLookup us n = none) : usersAdjust us n d = us := by
  induction us with
  | nil => simp [usersAdjust]
  | cons p rest ih =>
    obtain ⟨k, b⟩ := p
    by_cases hk : k = n
    · simp [usersLookup, hk] at h
    · simp [usersLookup, hk] at h
      simp [usersAdjust, hk, ih h]

theorem usersContains_adjust (us : Users) (n m : String) (d : Int) :
    usersContains (usersAdjust us n d) m = usersContains us m := by
  by_cases h : m = n
  · subst h
    simp only [usersContains, usersLookup_adjust_self]
    cases usersLookup us m <;> simp
  · simp [usersContains, usersLookup_adjust_ne us n m d h]

theorem usersTotal_nil : usersTotal [] = 0 := rfl

theorem usersTotal_cons (p : String × Account) (rest : Users) :
    usersTotal (p :: rest) = p.2.coins + usersTotal rest := by
  simp [usersTotal]

theorem usersTotal_set_absent (us : Users) (n : String) (a : Account)
    (h : usersLookup us n = none) :
    usersTotal (usersSet us n a) = usersTotal us + a.coins := by
  induction us with
  | nil => simp [usersSet, usersTotal]
  | cons p rest ih =>
    obtain ⟨k, b⟩ := p
    by_cases hk : k = n
    · simp [usersLookup, hk] at h
    · simp [usersLookup, hk] at h
      simp [usersSet, hk, usersTotal_cons, ih h]
      ring

theorem usersTotal_adjust_present (us : Users) (n : String) (d : Int)
    (h : (usersLookup us n).isSome) :
    usersTotal (usersAdjust us n d) = usersTotal us + d := by
  induction us with
  | nil => simp [usersLookup] at h
  | cons p rest ih =>
    obtain ⟨k, b⟩ := p
    by_cases hk : k = n
    · simp [usersAdjust, hk, usersTotal_cons]
      ring
    · simp [usersLookup, hk] at h
      simp [usersAdjust, hk, usersTotal_cons, ih h]
      ring_nf

/-! ## `get_or_create_user` lemmas -/

theorem get_or_create_of_present (us : Users) (u : String) (t : Nat)
    (a : Account) (h : usersLookup us u = some a) :
    get_or_create_user us u t = (a, us) := by
  simp [get_or_create_user, h]

theorem get_or_create_of_absent (us : Users) (u : String) (t : Nat)
    (h : usersLookup us u = none) :
    get_or_create_user us u t
      = ({ address := derive_address u t, coins := 0 },
         usersSet us u { address := derive_address u t, coins := 0 }) := by
  simp [get_or_create_user, h]

theorem get_or_create_fst_coins (us : Users) (u : String) (t : Nat) :
    (get_or_create_user us u t).1.coins = bal us u := by
  unfold get_or_create_user bal
  cases h : usersLookup us u <;> simp

theorem get_or_create_lookup_self (us : Users) (u : String) (t : Nat) :
    usersLookup (get_or_create_user us u t).2 u
      = some (get_or_create_user us u t).1 := by
  unfold get_or_create_user
  cases h : usersLookup us u with
  | none => simp [usersLookup_set_self, h]
  | some a => simp [h]

theorem get_or_create_lookup_ne (us : Users) (u m : String) (t : Nat)
    (h : m ≠ u) :
    usersLookup (get_or_create_user us u t).2 m = usersLookup us m := by
  unfold get_or_create_user
  cases hu : usersLookup us u with
  | none => simp [usersLookup_set_ne us u m _ h]
  | some a => simp

theorem get_or_create_total (us : Users) (u : String) (t : Nat) :
    usersTotal (get_or_create_user us u t).2 = usersTotal us := by
  unfold get_or_create_user
  cases h : usersLookup us u with
  | none => simp [usersTotal_set_absent us u _ h]
  | some a => simp

theorem get_or_create_contains (us : Users) (u : String) (t : Nat) :
    usersContains (get_or_create_user us u t).2 u = true := by
  simp [usersContains, get_or_create_lookup_self]

/-! ## Chain-structure lemmas -/

theorem modifyLast_length (f : Block → Block) (c : List Block) :
    (modifyLast f c).length = c.length := by
  induction c with
  | nil => rfl
  | cons b rest ih =>
    cases rest with
    | nil => rfl
    | cons b2 rest2 => simp [modifyLast] at ih ⊢; exact ih

theorem appendBlocks_length (n : Nat) (c : List Block) (t : Nat) :
    (appendBlocks n c t).length = c.length + n := by
  induction n generalizing c with
  | zero => rfl
  | succ m ih =>
    simp [appendBlocks, ih, add_block]
    omega

theorem appendBlocks_ne_nil (n : Nat) (c : List Block) (t : Nat)
    (h : c ≠ []) : appendBlocks n c t ≠ [] := by
  intro hcon
  have hlen := appendBlocks_length n c t
  rw [hcon] at hlen
  simp only [List.length_nil] at hlen
  have hc : c.length = 0 := by omega
  exact h (List.length_eq_zero.mp hc)

theorem modifyLast_ne_nil (f : Block → Block) (c : List Block) (h : c ≠ []) :
    modifyLast f c ≠ [] := by
  intro hcon
  have := modifyLast_length f c
  rw [hcon] at this
  simp at this
  exact h (List.length_eq_zero.mp this.symm)

theorem lastHash_cons_cons (a b : Block) (l : List Block) :
    lastHash (a :: b :: l) = lastHash (b :: l) := by
  simp [lastHash, List.getLast?_cons_cons]

theorem chainLinkedB_append_last (c : List Block) (b : Block)
    (h : chainLinkedB c = true) (hb : b.prev_hash = lastHash c) :
    chainLinkedB (c ++ [b]) = true := by
  induction c with
  | nil => simp [chainLinkedB]
  | cons a rest ih =>
    cases rest with
    | nil =>
      simp [chainLinkedB, hb, lastHash, List.getLast?]
    | cons a2 rest2 =>
      simp only [chainLinkedB, Bool.and_eq_true] at h
      rw [lastHash_cons_cons] at hb
      have := ih h.2 hb
      simp only [List.cons_append, chainLinkedB, Bool.and_eq_true]
      constructor
      · exact h.1
      · simpa using this

theorem chainLinkedB_add_block (c : List Block) (data : List Tx) (t : Nat)
    (h : chainLinkedB c = true) :
    chainLinkedB (add_block c data t) = true := by
  apply chainLinkedB_append_last c _ h
  simp [mkBlock]

theorem chainLinkedB_appendBlocks (n : Nat) (c : List Block) (t : Nat)
    (h : chainLinkedB c = true) :
    chainLinkedB (appendBlocks n c t) = true := by
  induction n generalizing c with
  | zero => exact h
  | succ m ih =>
    simp only [appendBlocks]
    exact ih _ (chainLinkedB_add_block c [] t h)

theorem chainLinkedB_modifyLast (f : Block → Block) (hf : DataOnly f)
    (c : List Block) : chainLinkedB (modifyLast f c) = chainLinkedB c := by
  induction c with
  | nil => rfl
  | cons b rest ih =>
    cases rest with
    | nil => simp [modifyLast, chainLinkedB]
    | cons b2 rest2 =>
      cases rest2 with
      | nil =>
        simp [modifyLast, chainLinkedB, (hf b2).2.1, (hf b2).2.2.2]
      | cons b3 rest3 =>
        simp only [modifyLast] at ih ⊢
        simp only [chainLinkedB, ih]

theorem blocksSealedEmpty_append (c : List Block) (b : Block) :
    blocksSealedEmpty (c ++ [b])
      = (blocksSealedEmpty c
          && (b.hash == compute_hash b.index b.prev_hash b.timestamp [])) := by
  simp [blocksSealedEmpty]

theorem blocksSealedEmpty_add_block_empty (c : List Block) (t : Nat)
    (h : blocksSealedEmpty c = true) :
    blocksSealedEmpty (add_block c [] t) = true := by
  rw [add_block, blocksSealedEmpty_append, h]
  simp [mkBlock]

theorem blocksSealedEmpty_appendBlocks (n : Nat) (c : List Block) (t : Nat)
    (h : blocksSealedEmpty c = true) :
    blocksSealedEmpty (appendBlocks n c t) = true := by
  induction n generalizing c with
  | zero => exact h
  | succ m ih =>
    simp only [appendBlocks]
    exact ih _ (blocksSealedEmpty_add_block_empty c t h)

theorem blocksSealedEmpty_modifyLast (f : Block → Block) (hf : DataOnly f)
    (c : List Block) :
    blocksSealedEmpty (modifyLast f c) = blocksSealedEmpty c := by
  induction c with
  | nil => rfl
  | cons b rest ih =>
    cases rest with
    | nil =>
      simp [modifyLast, blocksSealedEmpty, compute_hash,
        (hf b).1, (hf b).2.1, (hf b).2.2.1, (hf b).2.2.2]
    | cons b2 rest2 =>
      simp only [modifyLast] at ih ⊢
      simp only [blocksSealedEmpty, List.all_cons] at ih ⊢
      rw [ih]

theorem auto_block_users (s : ServerState) (t : Nat) :
    (auto_block_if_needed s t).users = s.users := rfl

theorem chainInv_auto (s : ServerState) (t : Nat) (h : ChainInv s.chain) :
    ChainInv (auto_block_if_needed s t).chain := by
  obtain ⟨h1, h2, h3⟩ := h
  exact ⟨appendBlocks_ne_nil _ _ _ h1, chainLinkedB_appendBlocks _ _ _ h2,
    blocksSealedEmpty_appendBlocks _ _ _ h3⟩

theorem dataOnly_appendTx (tx : Tx) :
    DataOnly (fun b => { b with data := b.data ++ [tx] }) :=
  fun _ => ⟨rfl, rfl, rfl, rfl⟩

theorem chainInv_appendTx (tx : Tx) (c : List Block) (h : ChainInv c) :
    ChainInv (modifyLast (fun b => { b with data := b.data ++ [tx] }) c) := by
  obtain ⟨h1, h2, h3⟩ := h
  refine ⟨modifyLast_ne_nil _ _ h1, ?_, ?_⟩
  · rw [chainLinkedB_modifyLast _ (dataOnly_appendTx tx)]
    exact h2
  · rw [blocksSealedEmpty_modifyLast _ (dataOnly_appendTx tx)]
    exact h3

theorem chainInv_buy (s : ServerState) (u : String) (a : Int) (t : Nat)
    (h : ChainInv s.chain) : ChainInv (buy_coins s u a t).chain := by
  unfold buy_coins
  exact chainInv_auto _ t (chainInv_appendTx _ s.chain h)

theorem chainInv_send (s : ServerState) (f to_a : String) (a : Int) (t : Nat)
    (h : ChainInv s.chain) : ChainInv (send_coins s f to_a a t).2.chain := by
  unfold send_coins
  dsimp only
  split_ifs
  all_goals
    first
      | exact h
      | exact chainInv_auto _ t (chainInv_appendTx _ s.chain h)

theorem chainInv_step (s : ServerState) (op : Op) (h : ChainInv s.chain) :
    ChainInv (step s op).chain := by
  cases op with
  | join u t => exact h
  | buy u a t => exact chainInv_buy s u a t h
  | send f to_a a t => exact chainInv_send s f to_a a t h
  | policy t => exact chainInv_auto s t h

theorem chainInv_init (t : Nat) : ChainInv (initState t).chain := by
  refine ⟨by simp [initState, genesisChain], ?_, ?_⟩
  · rfl
  · simp [initState, genesisChain, blocksSealedEmpty, mkBlock]

theorem chainInv_foldl (ops : List Op) (s : ServerState)
    (h : ChainInv s.chain) : ChainInv (ops.foldl step s).chain := by
  induction ops generalizing s with
  | nil => exact h
  | cons op rest ih => exact ih (step s op) (chainInv_step s op h)

theorem chainInv_reachable (s : ServerState) (h : Reachable s) :
    ChainInv s.chain := by
  obtain ⟨t0, ops, rfl⟩ := h
  exact chainInv_foldl ops (initState t0) (chainInv_init t0)

/-! ## Milestone-policy arithmetic -/

theorem auto_block_chain (s : ServerState) (t : Nat) :
    (auto_block_if_needed s t).chain
      = appendBlocks
          ((Int.fdiv (usersTotal s.users) 1000 + 1 - (s.chain.length : Int)).toNat)
          s.chain t := rfl

theorem auto_block_length (s : ServerState) (t : Nat) :
    (auto_block_if_needed s t).chain.length
      = s.chain.length
        + (Int.fdiv (usersTotal s.users) 1000 + 1 - (s.chain.length : Int)).toNat := by
  rw [auto_block_chain, appendBlocks_length]

theorem auto_block_of_caught_up (s : ServerState) (t : Nat)
    (h : (Int.fdiv (usersTotal s.users) 1000 + 1 - (s.chain.length : Int)).toNat = 0) :
    auto_block_if_needed s t = s := by
  unfold auto_block_if_needed
  dsimp only
  rw [h]
  rfl

theorem auto_block_idem (s : ServerState) (t t' : Nat) :
    auto_block_if_needed (auto_block_if_needed s t) t'
      = auto_block_if_needed s t := by
  apply auto_block_of_caught_up
  rw [auto_block_users, auto_block_length]
  omega

theorem buy_users (s : ServerState) (u : String) (a : Int) (t : Nat) :
    (buy_coins s u a t).users
      = usersAdjust (get_or_create_user s.users u t).2 u a := rfl

theorem buy_users_total (s : ServerState) (u : String) (a : Int) (t : Nat) :
    usersTotal (buy_coins s u a t).users = usersTotal s.users + a := by
  rw [buy_users, usersTotal_adjust_present, get_or_create_total]
  simp [get_or_create_lookup_self]

theorem buy_chain_length (s : ServerState) (u : String) (a : Int) (t : Nat) :
    (buy_coins s u a t).chain.length
      = s.chain.length
        + (Int.fdiv (usersTotal s.users + a) 1000 + 1 - (s.chain.length : Int)).toNat := by
  show (auto_block_if_needed _ t).chain.length = _
  rw [auto_block_length]
  have h1 : usersTotal (usersAdjust (get_or_create_user s.users u t).2 u a)
      = usersTotal s.users + a := by
    rw [usersTotal_adjust_present, get_or_create_total]
    simp [get_or_create_lookup_self]
  dsimp only
  rw [h1, modifyLast_length]

/-! ## Non-negativity helpers -/

theorem bal_nonneg (us : Users) (n : String) (h : AllNonneg us) :
    0 ≤ bal us n := by
  induction us with
  | nil => simp [bal, usersLookup]
  | cons p rest ih =>
    obtain ⟨k, b⟩ := p
    by_cases hk : k = n
    · have := h (k, b) (List.mem_cons_self _ _)
      simpa [bal, usersLookup, hk] using this
    · have hrest : AllNonneg rest := fun q hq => h q (List.mem_cons_of_mem _ hq)
      simpa [bal, usersLookup, hk] using ih hrest

theorem allNonneg_set (us : Users) (n : String) (a : Account)
    (h : AllNonneg us) (ha : 0 ≤ a.coins) : AllNonneg (usersSet us n a) := by
  induction us with
  | nil =>
    intro p hp
    simp [usersSet] at hp
    subst hp
    exact ha
  | cons q rest ih =>
    obtain ⟨k, b⟩ := q
    have hhead := h (k, b) (List.mem_cons_self _ _)
    have hrest : AllNonneg rest := fun q hq => h q (List.mem_cons_of_mem _ hq)
    intro p hp
    by_cases hk : k = n
    · simp [usersSet, hk] at hp
      rcases hp with hp | hp
      · subst hp; exact ha
      · exact hrest p hp
    · simp [usersSet, hk] at hp
      rcases hp with hp | hp
      · subst hp; exact hhead
      · exact ih hrest p hp

theorem allNonneg_adjust (us : Users) (n : String) (d : Int)
    (h : AllNonneg us) (hd : 0 ≤ bal us n + d) :
    AllNonneg (usersAdjust us n d) := by
  induction us with
  | nil => intro p hp; simp [usersAdjust] at hp
  | cons q rest ih =>
    obtain ⟨k, b⟩ := q
    have hhead := h (k, b) (List.mem_cons_self _ _)
    have hrest : AllNonneg rest := fun q hq => h q (List.mem_cons_of_mem _ hq)
    intro p hp
    by_cases hk : k = n
    · simp [usersAdjust, hk] at hp
      rcases hp with hp | hp
      · subst hp
        simp only [bal, usersLookup, hk, if_pos] at hd
        simpa using hd
      · exact hrest p hp
    · simp [usersAdjust, hk] at hp
      rcases hp with hp | hp
      · subst hp; exact hhead
      · have hd' : 0 ≤ bal rest n + d := by
          simpa [bal, usersLookup, hk] using hd
        exact ih hrest hd' p hp

theorem allNonneg_goc (us : Users) (u : String) (t : Nat) (h : AllNonneg us) :
    AllNonneg (get_or_create_user us u t).2 := by
  unfold get_or_create_user
  cases hu : usersLookup us u with
  | none => exact allNonneg_set us u _ h (by simp)
  | some a => exact h

theorem bal_set_ne (us : Users) (n m : String) (a : Account) (h : m ≠ n) :
    bal (usersSet us n a) m = bal us m := by
  simp [bal, usersLookup_set_ne us n m a h]

theorem bal_adjust_ne (us : Users) (n m : String) (d : Int) (h : m ≠ n) :
    bal (usersAdjust us n d) m = bal us m := by
  simp [bal, usersLookup_adjust_ne us n m d h]

/-- The debit-then-credit pair of `send_coins` (`main.py:195-196`)
preserves non-negativity of all balances. -/
theorem allNonneg_debit_credit (us : Users) (f rn : String) (a : Int)
    (h : AllNonneg us) (ha : 0 ≤ a) (hbal : rn ≠ f → a ≤ bal us f) :
    AllNonneg (usersAdjust (usersAdjust us f (-a)) rn a) := by
  by_cases hrf : rn = f
  · subst hrf
    rw [usersAdjust_adjust_same]
    simpa [usersAdjust_zero] using h
  · have hf := hbal hrf
    have h1 : AllNonneg (usersAdjust us f (-a)) := by
      apply allNonneg_adjust us f (-a) h
      omega
    apply allNonneg_adjust _ rn a h1
    rw [bal_adjust_ne us f rn (-a) hrf]
    have := bal_nonneg us rn h
    omega

/-! ## Supply helpers -/

theorem usersContains_set_self (us : Users) (n : String) (a : Account) :
    usersContains (usersSet us n a) n = true := by
  simp [usersContains, usersLookup_set_self]

theorem resolve_mem (us : Users) (addr : String) (n : String)
    (h : resolve_user_by_address us addr = some n) :
    usersContains us n = true := by
  induction us with
  | nil => simp [resolve_user_by_address] at h
  | cons p rest ih =>
    obtain ⟨k, b⟩ := p
    by_cases hk : b.address = addr
    · simp [resolve_user_by_address, hk] at h
      simp [usersContains, usersLookup, h]
    · simp [resolve_user_by_address, hk] at h
      have := ih h
      by_cases hkn : k = n <;> simp [usersContains, usersLookup, hkn, this] at this ⊢
      exact this

/-- The debit-then-credit pair of `send_coins` conserves the stored
total when both parties exist in the store it operates on. -/
theorem total_debit_credit (us : Users) (f rn : String) (a : Int)
    (hf : usersContains us f = true) (hrn : usersContains us rn = true) :
    usersTotal (usersAdjust (usersAdjust us f (-a)) rn a) = usersTotal us := by
  have h1 : usersTotal (usersAdjust us f (-a)) = usersTotal us + (-a) := by
    apply usersTotal_adjust_present
    simpa [usersContains] using hf
  have h2 : usersTotal (usersAdjust (usersAdjust us f (-a)) rn a)
      = usersTotal (usersAdjust us f (-a)) + a := by
    apply usersTotal_adjust_present
    have := usersContains_adjust us f rn (-a)
    simp only [usersContains] at this hrn
    rw [this]
    exact hrn
  rw [h2, h1]
  ring

/-! ## `send_coins` characterization -/

theorem send_coins_eq (s : ServerState) (f to_a : String) (a : Int) (t : Nat) :
    send_coins s f to_a a t
      = if (get_or_create_user s.users f t).1.coins < a then
          (ApiResult.insufficientBalance,
            { s with users := (get_or_create_user s.users f t).2 })
        else if usersContains (sendUsersA s f to_a t) f then
          (ApiResult.ok,
            auto_block_if_needed
              { users :=
                  usersAdjust
                    (usersAdjust (sendUsersA s f to_a t) f (-a))
                    (sendRname s f to_a t) a,
                chain :=
                  modifyLast
                    (fun b =>
                      { b with
                        data := b.data ++ [Tx.send f (sendRname s f to_a t) a t] })
                    s.chain } t)
        else
          (ApiResult.crash, { s with users := (get_or_create_user s.users f t).2 }) := by
  unfold send_coins sendUsersA sendRname sendNeedSynth sendRn0
  rfl

theorem goc_snd_of_contains (us : Users) (f : String) (t : Nat)
    (h : usersContains us f = true) : (get_or_create_user us f t).2 = us := by
  unfold usersContains at h
  cases hl : usersLookup us f with
  | none => rw [hl] at h; simp at h
  | some a => rw [get_or_create_of_present us f t a hl]

theorem usersLookup_eq_none_of_not_contains (us : Users) (n : String)
    (h : usersContains us n = false) : usersLookup us n = none := by
  unfold usersContains at h
  cases hl : usersLookup us n with
  | none => rfl
  | some a => rw [hl] at h; simp at h

theorem sendRname_contains (s : ServerState) (f to_a : String) (t : Nat)
    (hf : usersContains s.users f = true)
    (hsynth : sendNeedSynth s f to_a t = false) :
    usersContains s.users (sendRname s f to_a t) = true := by
  unfold sendRname
  rw [hsynth]
  simp only [Bool.false_eq_true, if_false]
  unfold sendNeedSynth at hsynth
  unfold sendRn0 at hsynth ⊢
  by_cases hto : usersContains s.users to_a = true
  · simp only [hto, if_true, Option.getD_some]
  · rw [if_neg hto] at hsynth ⊢
    rw [goc_snd_of_contains s.users f t hf] at hsynth ⊢
    cases hres : resolve_user_by_address s.users to_a with
    | none => rw [hres] at hsynth; simp at hsynth
    | some n =>
      simp only [hres, Option.getD_some]
      exact resolve_mem _ _ _ hres

theorem sendUsersA_of_synth (s : ServerState) (f to_a : String) (t : Nat)
    (h : sendNeedSynth s f to_a t = true) :
    sendUsersA s f to_a t
      = usersSet s.users (sendRname s f to_a t)
          { address := to_a, coins := 0 } := by
  unfold sendUsersA
  rw [h]
  simp

theorem sendUsersA_of_not_synth (s : ServerState) (f to_a : String) (t : Nat)
    (h : sendNeedSynth s f to_a t = false) :
    sendUsersA s f to_a t = s.users := by
  unfold sendUsersA
  rw [h]
  simp

/-- A `send` whose synthesized receiver name does not collide with an
existing account (`stepOk`) conserves the stored total supply. -/
theorem send_total (s : ServerState) (f to_a : String) (a : Int) (t : Nat)
    (hok : stepOk s (Op.send f to_a a t) = true) :
    usersTotal (send_coins s f to_a a t).2.users = usersTotal s.users := by
  rw [send_coins_eq]
  have hok2 : (if (get_or_create_user s.users f t).1.coins < a then true
      else if sendNeedSynth s f to_a t = true
      then !(usersContains s.users (sendRname s f to_a t)) else true) = true := hok
  by_cases hins : (get_or_create_user s.users f t).1.coins < a
  · rw [if_pos hins]
    dsimp only
    rw [get_or_create_total]
  · rw [if_neg hins]
    rw [if_neg hins] at hok2
    by_cases hcf : usersContains (sendUsersA s f to_a t) f = true
    · rw [if_pos hcf]
      dsimp only
      rw [auto_block_users]
      dsimp only
      cases hsynth : sendNeedSynth s f to_a t with
      | true =>
        rw [if_pos hsynth] at hok2
        have hnc : usersContains s.users (sendRname s f to_a t) = false := by
          simpa using hok2
        have husersA := sendUsersA_of_synth s f to_a t hsynth
        rw [husersA] at hcf ⊢
        rw [total_debit_credit _ _ _ _ hcf (usersContains_set_self _ _ _)]
        rw [usersTotal_set_absent _ _ _
          (usersLookup_eq_none_of_not_contains _ _ hnc)]
        simp
      | false =>
        have husersA := sendUsersA_of_not_synth s f to_a t hsynth
        rw [husersA] at hcf ⊢
        rw [total_debit_credit _ _ _ _ hcf
          (sendRname_contains s f to_a t hcf hsynth)]
    · rw [if_neg hcf]
      dsimp only
      rw [get_or_create_total]

/-- A `send` with a non-negative amount preserves non-negativity of all
balances. -/
theorem allNonneg_send (s : ServerState) (f to_a : String) (a : Int) (t : Nat)
    (ha : 0 ≤ a) (h : AllNonneg s.users) :
    AllNonneg (send_coins s f to_a a t).2.users := by
  rw [send_coins_eq]
  by_cases hins : (get_or_create_user s.users f t).1.coins < a
  · rw [if_pos hins]
    exact allNonneg_goc s.users f t h
  · rw [if_neg hins]
    have hbalf : a ≤ bal s.users f := by
      have := get_or_create_fst_coins s.users f t
      omega
    by_cases hcf : usersContains (sendUsersA s f to_a t) f = true
    · rw [if_pos hcf]
      dsimp only
      rw [auto_block_users]
      dsimp only
      have hA : AllNonneg (sendUsersA s f to_a t) := by
        cases hsynth : sendNeedSynth s f to_a t with
        | true =>
          rw [sendUsersA_of_synth s f to_a t hsynth]
          exact allNonneg_set _ _ _ h (by simp)
        | false =>
          rw [sendUsersA_of_not_synth s f to_a t hsynth]
          exact h
      apply allNonneg_debit_credit _ _ _ _ hA ha
      intro hrf
      cases hsynth : sendNeedSynth s f to_a t with
      | true =>
        rw [sendUsersA_of_synth s f to_a t hsynth]
        rw [bal_set_ne _ _ _ _ (fun hh => hrf hh.symm)]
        exact hbalf
      | false =>
        rw [sendUsersA_of_not_synth s f to_a t hsynth]
        exact hbalf
    · rw [if_neg hcf]
      exact allNonneg_goc s.users f t h

/-! ## Trace-level invariants -/

theorem allNonneg_buy (s : ServerState) (u : String) (a : Int) (t : Nat)
    (ha : 0 ≤ a) (h : AllNonneg s.users) : AllNonneg (buy_coins s u a t).users := by
  rw [buy_users]
  apply allNonneg_adjust _ _ _ (allNonneg_goc _ _ _ h)
  have := bal_nonneg (get_or_create_user s.users u t).2 u (allNonneg_goc _ _ _ h)
  omega

theorem allNonneg_foldl (ops : List Op) (s : ServerState)
    (hpos : posAmounts ops = true) (h : AllNonneg s.users) :
    AllNonneg ((ops.foldl step s).users) := by
  induction ops generalizing s with
  | nil => exact h
  | cons op rest ih =>
    cases op with
    | join u t =>
      simp only [posAmounts] at hpos
      exact ih (join_user s u t) hpos (allNonneg_goc s.users u t h)
    | buy u a t =>
      simp only [posAmounts, Bool.and_eq_true, decide_eq_true_eq] at hpos
      exact ih _ hpos.2 (allNonneg_buy s u a t (le_of_lt hpos.1) h)
    | send f to_a a t =>
      simp only [posAmounts, Bool.and_eq_true, decide_eq_true_eq] at hpos
      exact ih _ hpos.2 (allNonneg_send s f to_a a t (le_of_lt hpos.1) h)
    | policy t =>
      simp only [posAmounts] at hpos
      exact ih (auto_block_if_needed s t) hpos h

theorem mintAmt_join (u : String) (t : Nat) : mintAmt (Op.join u t) = 0 := rfl

theorem total_step (s : ServerState) (op : Op) (hok : stepOk s op = true) :
    usersTotal (step s op).users = usersTotal s.users + mintAmt op := by
  cases op with
  | join u t =>
    show usersTotal (join_user s u t).users = _
    unfold join_user
    dsimp only
    rw [get_or_create_total, mintAmt_join, add_zero]
  | buy u a t =>
    show usersTotal (buy_coins s u a t).users = _
    rw [buy_users_total]
    rfl
  | send f to_a a t =>
    show usersTotal (send_coins s f to_a a t).2.users = _
    rw [send_total s f to_a a t hok]
    show _ = usersTotal s.users + 0
    rw [add_zero]
  | policy t =>
    show usersTotal (auto_block_if_needed s t).users = _
    rw [auto_block_users]
    show _ = usersTotal s.users + 0
    rw [add_zero]

theorem mintSum_cons (op : Op) (rest : List Op) :
    mintSum (op :: rest) = mintAmt op + mintSum rest := by
  cases op <;> simp [mintSum, mintAmt]

theorem total_foldl (ops : List Op) (s : ServerState)
    (hok : traceOkFrom s ops = true) :
    usersTotal ((ops.foldl step s).users) = usersTotal s.users + mintSum ops := by
  induction ops generalizing s with
  | nil => simp [mintSum]
  | cons op rest ih =>
    simp only [traceOkFrom, Bool.and_eq_true] at hok
    rw [List.foldl_cons, ih (step s op) hok.2, total_step s op hok.1,
      mintSum_cons]
    ring

/-! ## Remaining support lemmas -/

theorem send_insufficient (s : ServerState) (f to_a : String) (a : Int) (t : Nat)
    (h : bal s.users f < a) :
    send_coins s f to_a a t
      = (ApiResult.insufficientBalance,
         { s with users := (get_or_create_user s.users f t).2 }) := by
  rw [send_coins_eq, if_pos]
  rw [get_or_create_fst_coins]
  exact h

theorem bal_of_lookup (us : Users) (n : String) (a : Account)
    (h : usersLookup us n = some a) : bal us n = a.coins := by
  unfold bal
  rw [h]

theorem bal_buy (s : ServerState) (u : String) (a : Int) (t : Nat) :
    bal (buy_coins s u a t).users u = bal s.users u + a := by
  have h2 : usersLookup (buy_coins s u a t).users u
      = some { address := (get_or_create_user s.users u t).1.address,
               coins := (get_or_create_user s.users u t).1.coins + a } := by
    rw [buy_users, usersLookup_adjust_self, get_or_create_lookup_self]
    rfl
  rw [bal_of_lookup _ _ _ h2]
  simp [get_or_create_fst_coins]

theorem map_reload_eq_self (c : List Block)
    (h : ∀ b ∈ c, b.hash = compute_hash b.index b.prev_hash b.timestamp b.data) :
    c.map (fun b => mkBlock b.index b.prev_hash b.timestamp b.data) = c := by
  induction c with
  | nil => rfl
  | cons b rest ih =>
    simp only [List.map_cons]
    have hb := h b (List.mem_cons_self _ _)
    have hmk : mkBlock b.index b.prev_hash b.timestamp b.data = b := by
      cases b with
      | mk i p ts d hh =>
        simp only [mkBlock]
        simp only at hb
        rw [hb]
    rw [hmk, ih (fun x hx => h x (List.mem_cons_of_mem _ hx))]

theorem blocksHashCurrent_mem (c : List Block) (b : Block)
    (h : blocksHashCurrent c = true) (hb : b ∈ c) :
    b.hash = compute_hash b.index b.prev_hash b.timestamp b.data := by
  have := List.all_eq_true.mp h b hb
  simpa using this

/-! ## Claims -/

/-- C1: the claim that in every reachable state every block's stored
hash equals the hash of its *current* fields and linkage holds. The
linkage half is true; the hash half fails because `buy_coins` and
`send_coins` append transactions to the tail block's `data`
(`main.py:173`, `main.py:197`) without recomputing its hash. Amended:
in every reachable state the chain is hash-linked
(`chain[i].prev_hash = chain[i-1].hash` for `i > 0`), and every block's
stored hash equals the hash of its creation-time fields — its index,
previous hash, timestamp, and the empty transaction list every block is
created with. -/
theorem c1_linkage_and_creation_hash (s : ServerState) (h : Reachable s) :
    chainLinkedB s.chain = true ∧ blocksSealedEmpty s.chain = true := by
  have hinv := chainInv_reachable s h
  exact ⟨hinv.2.1, hinv.2.2⟩

/-- C1 witness: the amended invariant, evaluated on the concrete state
reached by one `buy`. -/
theorem c1_linkage_and_creation_hash_witness :
    chainLinkedB (run 0 [Op.buy "a" 1 1]).chain = true ∧
      blocksSealedEmpty (run 0 [Op.buy "a" 1 1]).chain = true :=
  c1_linkage_and_creation_hash (run 0 [Op.buy "a" 1 1]) ⟨0, [Op.buy "a" 1 1], rfl⟩

/-- C1 counterexample: after a single `buy` from the fresh state — a
reachable state — the genesis block's `data` holds the buy transaction
but its stored hash is still the hash of the empty list, so
`chain[i].hash = HashLink(chain[i])` over current fields is false. -/
theorem c1_counterexample :
    Reachable (run 0 [Op.buy "a" 1 1]) ∧
      blocksHashCurrent (run 0 [Op.buy "a" 1 1]).chain = false :=
  ⟨⟨0, [Op.buy "a" 1 1], rfl⟩, by decide⟩

/-- C2: the claim that every reachable balance is non-negative. It
fails because `buy_coins` performs no amount validation, so a negative
`buy` amount drives a balance negative. Amended: in every state
reachable by `join`, `buy` and `send` operations whose amounts are all
positive, every stored account balance is non-negative. -/
theorem c2_balances_nonneg (t0 : Nat) (ops : List Op)
    (hpos : posAmounts ops = true) :
    ∀ p ∈ (run t0 ops).users, 0 ≤ p.2.coins := by
  apply allNonneg_foldl ops (initState t0) hpos
  intro p hp
  simp [initState] at hp

/-- C2 witness: the amended statement on a concrete two-operation
positive trace, evaluated at the resulting account of "b". -/
theorem c2_balances_nonneg_witness :
    0 ≤ (Account.mk "x" 200).coins :=
  c2_balances_nonneg 0 [Op.buy "a" 500 1, Op.send "a" "x" 200 2] (by decide)
    ("user_x", Account.mk "x" 200) (by decide)

/-- C2 counterexample: `buy` of −5 by a fresh user is accepted by the
code and leaves the account at balance −5 in a reachable state. -/
theorem c2_counterexample :
    Reachable (run 0 [Op.buy "a" (-5) 1]) ∧
      bal (run 0 [Op.buy "a" (-5) 1]).users "a" = -5 ∧
      bal (run 0 [Op.buy "a" (-5) 1]).users "a" < 0 :=
  ⟨⟨0, [Op.buy "a" (-5) 1], rfl⟩, by decide, by decide⟩

/-- C3: a `send` whose amount exceeds the sender's current balance
(0 when the sender has no account, since `get_or_create_user` creates
it that way) returns the `Insufficient balance` error, leaves the chain
untouched, leaves every account other than `from_user` exactly as it
was — in particular the named receiver is not created when it differs
from `from_user` — and leaves the whole store untouched when the sender
already existed. The original claim's "the receiver named in the
request does not exist afterward" fails when the receiver name equals
`from_user`, because the sender account is created by
`get_or_create_user` before the balance check (`main.py:183`). -/
theorem c3_insufficient_send (s : ServerState) (f to_a : String) (a : Int)
    (t : Nat) (h : bal s.users f < a) :
    (send_coins s f to_a a t).1 = ApiResult.insufficientBalance
    ∧ (send_coins s f to_a a t).2.chain = s.chain
    ∧ (∀ n, n ≠ f →
        usersLookup (send_coins s f to_a a t).2.users n = usersLookup s.users n)
    ∧ (usersContains s.users f = true →
        (send_coins s f to_a a t).2.users = s.users)
    ∧ (to_a ≠ f → usersContains s.users to_a = false →
        usersContains (send_coins s f to_a a t).2.users to_a = false) := by
  rw [send_insufficient s f to_a a t h]
  refine ⟨rfl, rfl, ?_, ?_, ?_⟩
  · intro n hn
    exact get_or_create_lookup_ne s.users f n t hn
  · intro hf
    simp [goc_snd_of_contains s.users f t hf]
  · intro hto hc
    unfold usersContains
    dsimp only
    rw [get_or_create_lookup_ne s.users f to_a t hto,
      usersLookup_eq_none_of_not_contains s.users to_a hc]
    rfl

/-- C3 witness: Scenario B concretely — alice holds 100 and sends 150
to bob: the call fails with the insufficient-balance error, alice still
holds 100, bob is not created, and the chain is unchanged. -/
theorem c3_insufficient_send_witness :
    (send_coins (run 0 [Op.buy "alice" 100 1]) "alice" "bob" 150 2).1
        = ApiResult.insufficientBalance
    ∧ (send_coins (run 0 [Op.buy "alice" 100 1]) "alice" "bob" 150 2).2.users
        = (run 0 [Op.buy "alice" 100 1]).users
    ∧ usersContains
        (send_coins (run 0 [Op.buy "alice" 100 1]) "alice" "bob" 150 2).2.users
        "bob" = false
    ∧ (send_coins (run 0 [Op.buy "alice" 100 1]) "alice" "bob" 150 2).2.chain
        = (run 0 [Op.buy "alice" 100 1]).chain := by
  have h := c3_insufficient_send (run 0 [Op.buy "alice" 100 1])
    "alice" "bob" 150 2 (by decide)
  exact ⟨h.1, h.2.2.2.1 (by decide), h.2.2.2.2 (by decide) (by decide), h.2.1⟩

/-- C3 counterexample: with `to = from_user = "alice"` and no existing
account, the failing send nevertheless leaves the receiver named in the
request existing afterwards — `get_or_create_user` created it as the
sender before the balance check. -/
theorem c3_counterexample :
    usersContains (initState 0).users "alice" = false
    ∧ (send_coins (initState 0) "alice" "alice" 5 1).1
        = ApiResult.insufficientBalance
    ∧ usersContains (send_coins (initState 0) "alice" "alice" 5 1).2.users
        "alice" = true := by
  exact ⟨by decide, by decide, by decide⟩

/-- C4: the claim that a `buy` with amount ≤ 0 fails with
`InvalidAmount` and changes nothing. In the code `buy_coins`
(`main.py:166-177`) performs no validation at all: for every integer
amount, the amount is simply added to the (possibly freshly created)
account's balance. Amended to that unconditional behavior. -/
theorem c4_buy_unvalidated (s : ServerState) (u : String) (a : Int) (t : Nat) :
    bal (buy_coins s u a t).users u = bal s.users u + a :=
  bal_buy s u a t

/-- C4 counterexample: a `buy` of −5 from the fresh state does not
fail (there is no error outcome in `buy_coins` at all) and mutates both
the user store and the chain: the account is created at balance −5 and
the buy transaction is appended to the tail block. -/
theorem c4_counterexample :
    (buy_coins (initState 0) "a" (-5) 1).users ≠ (initState 0).users
    ∧ bal (buy_coins (initState 0) "a" (-5) 1).users "a" = -5
    ∧ (buy_coins (initState 0) "a" (-5) 1).chain ≠ (initState 0).chain := by
  exact ⟨by decide, by decide, by decide⟩

/-- C5: the claim that a `send` from a nonexistent `from_user` fails
with `UserNotFound`. It fails: `send_coins` resolves the sender with
`get_or_create_user` (`main.py:183`), which creates the account with
balance 0, and the operation then (for positive amounts) fails with the
`Insufficient balance` error instead; no `UserNotFound` outcome exists
for send. Amended: a send from a nonexistent user creates that user
(balance 0) and, when the amount is positive, fails with
`InsufficientFunds`. -/
theorem c5_absent_sender_insufficient (s : ServerState) (f to_a : String)
    (a : Int) (t : Nat) (habs : usersContains s.users f = false) (ha : 0 < a) :
    (send_coins s f to_a a t).1 = ApiResult.insufficientBalance
    ∧ usersContains (send_coins s f to_a a t).2.users f = true := by
  have h0 : bal s.users f = 0 := by
    unfold bal
    rw [usersLookup_eq_none_of_not_contains s.users f habs]
  have hbal : bal s.users f < a := by omega
  rw [send_insufficient s f to_a a t hbal]
  exact ⟨rfl, get_or_create_contains s.users f t⟩

/-- C5 witness: the amended statement at the fresh state. -/
theorem c5_absent_sender_insufficient_witness :
    (send_coins (initState 0) "carol" "dave" 5 1).1
        = ApiResult.insufficientBalance
    ∧ usersContains (send_coins (initState 0) "carol" "dave" 5 1).2.users
        "carol" = true := by
  have h := c5_absent_sender_insufficient (initState 0) "carol" "dave" 5 1
    (by decide) (by decide)
  exact h

/-- C5 counterexample: a send from the nonexistent "alice" returns the
insufficient-balance error — not a user-not-found error — and "alice"
is created (with its derived address and balance 0) rather than merely
looked up. -/
theorem c5_counterexample :
    usersLookup (initState 0).users "alice" = none
    ∧ (send_coins (initState 0) "alice" "bob" 5 1).1
        = ApiResult.insufficientBalance
    ∧ usersLookup (send_coins (initState 0) "alice" "bob" 5 1).2.users "alice"
        = some { address := derive_address "alice" 1, coins := 0 } := by
  exact ⟨by decide, by decide, by decide⟩

/-- C6: the milestone policy. The original claim's equality
"chain length minus one equals floor(totalSupply / 1000)" fails when
the chain is already longer than the target (reachable via a negative
`buy`, which shrinks the supply but never removes blocks). Amended:
(1) whenever the chain is not already past the target, the policy
appends empty blocks until `len(chain) - 1 = floor(totalSupply/1000)`
exactly; (2) invoking the policy again with no intervening balance
change is a no-op (it appends nothing and the state is unchanged);
(3) from a caught-up state, a `buy` whose amount does not change
`floor(totalSupply/1000)` leaves the chain length unchanged, and one
that increases it by exactly one appends exactly one block. -/
theorem c6_milestone_policy (s : ServerState) (t t' : Nat) (u : String)
    (a : Int) :
    ((s.chain.length : Int) ≤ Int.fdiv (usersTotal s.users) 1000 + 1 →
      (((auto_block_if_needed s t).chain.length : Int)
        = Int.fdiv (usersTotal s.users) 1000 + 1))
    ∧ auto_block_if_needed (auto_block_if_needed s t) t'
        = auto_block_if_needed s t
    ∧ ((s.chain.length : Int) - 1 = Int.fdiv (usersTotal s.users) 1000 →
        (Int.fdiv (usersTotal s.users + a) 1000
              = Int.fdiv (usersTotal s.users) 1000 →
          (buy_coins s u a t).chain.length = s.chain.length)
        ∧ (Int.fdiv (usersTotal s.users + a) 1000
              = Int.fdiv (usersTotal s.users) 1000 + 1 →
          (buy_coins s u a t).chain.length = s.chain.length + 1)) := by
  refine ⟨?_, auto_block_idem s t t', ?_⟩
  · intro hle
    rw [auto_block_length]
    push_cast
    omega
  · intro hinv
    constructor
    · intro hsame
      rw [buy_chain_length, hsame]
      omega
    · intro hcross
      rw [buy_chain_length, hcross]
      omega

/-- C6 witness: Scenario A concretely — after buying 600 the chain has
1 block; buying 500 more crosses the 1000 milestone and appends exactly
one block; re-invoking the policy with no balance change is a no-op. -/
theorem c6_milestone_policy_witness :
    (buy_coins (run 0 [Op.buy "a" 600 1]) "a" 500 2).chain.length
        = (run 0 [Op.buy "a" 600 1]).chain.length + 1
    ∧ auto_block_if_needed (auto_block_if_needed (run 0 [Op.buy "a" 600 1]) 2) 3
        = auto_block_if_needed (run 0 [Op.buy "a" 600 1]) 2 := by
  have h := c6_milestone_policy (run 0 [Op.buy "a" 600 1]) 2 3 "a" 500
  exact ⟨(h.2.2 (by decide)).2 (by decide), h.2.1⟩

/-- C6 counterexample: after `buy 2000; buy −2000; buy 1000` the last
operation is balance-increasing, yet afterwards `len(chain) − 1 = 2`
while `floor(totalSupply/1000) = 1` — the claimed equality is false
(the policy never removes blocks). -/
theorem c6_counterexample :
    Reachable (run 0 [Op.buy "a" 2000 1, Op.buy "a" (-2000) 2, Op.buy "a" 1000 3])
    ∧ ((run 0 [Op.buy "a" 2000 1, Op.buy "a" (-2000) 2,
          Op.buy "a" 1000 3]).chain.length : Int) - 1 = 2
    ∧ Int.fdiv
        (usersTotal (run 0 [Op.buy "a" 2000 1, Op.buy "a" (-2000) 2,
          Op.buy "a" 1000 3]).users) 1000 = 1 :=
  ⟨⟨0, [Op.buy "a" 2000 1, Op.buy "a" (-2000) 2, Op.buy "a" 1000 3], rfl⟩,
    by decide, by decide⟩

/-- C7: the claim that loading a persisted chain that violates the
integrity invariant detects the violation and never silently serves it.
It fails: `load_chain` (`main.py:59-72`) rebuilds every block through
the `Block` constructor, which recomputes the hash from the stored
`index`, `prev_hash`, `timestamp` and `data` and ignores the stored
`hash` entirely; no integrity check exists anywhere in the source, and
only a file that fails parsing triggers the delete-and-reinitialize
branch. Amended: on parse success the stored fields are served verbatim
with every hash recomputed from them; on parse failure a fresh genesis
chain is created. -/
theorem c7_load_no_verification (recs : List BlockRec) (t t' : Nat) :
    (load_chain (some recs) t).map blockFields = recs.map recFields
    ∧ (∀ b ∈ load_chain (some recs) t,
        b.hash = compute_hash b.index b.prev_hash b.timestamp b.data)
    ∧ load_chain none t' = genesisChain t' := by
  refine ⟨?_, ?_, rfl⟩
  · simp [load_chain, List.map_map, Function.comp, blockFields, recFields,
      mkBlock]
  · intro b hb
    simp only [load_chain, List.mem_map] at hb
    obtain ⟨d, _, rfl⟩ := hb
    rfl

/-- C7 witness: the amended behavior evaluated on the concrete tampered
file `tamperedRecs` and on a missing file. -/
theorem c7_load_no_verification_witness :
    (load_chain (some tamperedRecs) 5).map blockFields
        = tamperedRecs.map recFields
    ∧ (mkBlock 1 (HashVal.raw "bogus") 1 []).hash
        = compute_hash 1 (HashVal.raw "bogus") 1 []
    ∧ load_chain none 9 = genesisChain 9 := by
  have h := c7_load_no_verification tamperedRecs 5 9
  exact ⟨h.1, h.2.1 (mkBlock 1 (HashVal.raw "bogus") 1 []) (by decide), h.2.2⟩

/-- C7 counterexample: `tamperedRecs` fails the spec's integrity check
(`verifyIntegrity` returns false: its second record's stored hash does
not match its fields and its `prev_hash` does not link), yet
`load_chain` neither rejects nor reinitializes — it serves a chain with
exactly the tampered records' fields, broken linkage included. -/
theorem c7_counterexample :
    verifyIntegrity tamperedRecs = false
    ∧ load_chain (some tamperedRecs) 5 ≠ genesisChain 5
    ∧ (load_chain (some tamperedRecs) 5).map blockFields
        = tamperedRecs.map recFields
    ∧ chainLinkedB (load_chain (some tamperedRecs) 5) = false := by
  exact ⟨by decide, by decide, by decide, by decide⟩

/-- C8: the claim that the sum of balances always equals the sum of all
mint amounts, every send conserving supply. It fails when a send to an
unknown address synthesizes the receiver name `user_<to[:6]>` and that
name already belongs to an existing account: `main.py:192` overwrites
the account, resetting its balance to 0 and destroying supply. Amended:
(1) over any buy/send trace in which no send clobbers an existing
account that way (`traceOk`), the sum of balances equals the sum of all
buy amounts; (2) a single send satisfying the no-clobber condition
conserves the total supply. -/
theorem c8_supply_conservation :
    (∀ t0 ops, onlyBuySend ops = true → traceOk t0 ops = true →
      usersTotal (run t0 ops).users = mintSum ops)
    ∧ (∀ s f to_a a t, stepOk s (Op.send f to_a a t) = true →
      usersTotal (send_coins s f to_a a t).2.users = usersTotal s.users) := by
  constructor
  · intro t0 ops _honly hok
    have h := total_foldl ops (initState t0) hok
    simpa [initState, usersTotal] using h
  · intro s f to_a a t hok
    exact send_total s f to_a a t hok

/-- C8 witness: a concrete mint-and-transfer trace whose total supply
equals its minted sum. -/
theorem c8_supply_conservation_witness :
    usersTotal (run 0 [Op.buy "a" 500 1, Op.send "a" "x" 200 2]).users
      = mintSum [Op.buy "a" 500 1, Op.send "a" "x" 200 2] :=
  c8_supply_conservation.1 0 [Op.buy "a" 500 1, Op.send "a" "x" 200 2]
    (by decide) (by decide)

/-- C8 counterexample: mints of 500 and 100, then a send of 50 to the
unknown address "abcdef": the synthesized receiver name `user_abcdef`
collides with the existing account of that name, whose balance 500 is
destroyed by the overwrite — the total supply afterwards is 100, while
the minted sum is 600; that send did not conserve supply. -/
theorem c8_counterexample :
    usersTotal (run 0 [Op.buy "user_abcdef" 500 0, Op.buy "alice" 100 1,
        Op.send "alice" "abcdef" 50 2]).users = 100
    ∧ mintSum [Op.buy "user_abcdef" 500 0, Op.buy "alice" 100 1,
        Op.send "alice" "abcdef" 50 2] = 600 := by
  exact ⟨by decide, by decide⟩

/-- C9: the claim that persisting then reloading yields exactly the
prior in-memory state. The non-hash fields do round-trip, but
`load_chain` recomputes each hash from the stored fields, so a block's
hash survives the round trip only if its stored hash already matched
its current fields — false for any tail block mutated by `buy`/`send`
after creation. Amended: the round trip preserves every block's index,
previous hash, timestamp and transactions, and is the exact identity
precisely on chains whose stored hashes match their current fields. -/
theorem c9_round_trip (c : List Block) (t : Nat) :
    (load_chain (some (save_chain c)) t).map blockFields = c.map blockFields
    ∧ (blocksHashCurrent c = true → load_chain (some (save_chain c)) t = c) := by
  constructor
  · simp [load_chain, save_chain, List.map_map, Function.comp, blockFields,
      mkBlock]
  · intro h
    show (save_chain c).map
      (fun d => mkBlock d.index d.prev_hash d.timestamp d.data) = c
    unfold save_chain
    rw [List.map_map]
    exact map_reload_eq_self c (fun b hb => blocksHashCurrent_mem c b h hb)

/-- C9 witness: the genesis chain (whose only block is unmutated)
round-trips exactly. -/
theorem c9_round_trip_witness :
    load_chain (some (save_chain (genesisChain 0))) 7 = genesisChain 0 :=
  (c9_round_trip (genesisChain 0) 7).2 (by decide)

/-- C9 counterexample: the state after one `buy` — whose genesis block
carries the buy transaction but still the hash of the empty list — does
not round-trip: the reloaded chain has the same fields but a different
(recomputed) hash. -/
theorem c9_counterexample :
    (load_chain (some (save_chain (run 0 [Op.buy "a" 1 1]).chain)) 7).map
        blockFields = ((run 0 [Op.buy "a" 1 1]).chain).map blockFields
    ∧ load_chain (some (save_chain (run 0 [Op.buy "a" 1 1]).chain)) 7
        ≠ (run 0 [Op.buy "a" 1 1]).chain := by
  exact ⟨by decide, by decide⟩

/-- C10: a `send` whose `from_user` has no account first creates and
persists that account with balance 0 and the derived address
(`get_or_create_user`, `main.py:183`, `main.py:93-101`), and when the
positive amount then fails the balance check the new sender account
remains in the store while nothing else changes: every other account
is untouched and the chain is unchanged. Confirmed as claimed. -/
theorem c10_sender_created_on_failed_send (s : ServerState) (f to_a : String)
    (a : Int) (t : Nat) (habs : usersLookup s.users f = none) (ha : 0 < a) :
    (send_coins s f to_a a t).1 = ApiResult.insufficientBalance
    ∧ usersLookup (send_coins s f to_a a t).2.users f
        = some { address := derive_address f t, coins := 0 }
    ∧ (∀ n, n ≠ f →
        usersLookup (send_coins s f to_a a t).2.users n = usersLookup s.users n)
    ∧ (send_coins s f to_a a t).2.chain = s.chain := by
  have hbal : bal s.users f < a := by
    unfold bal
    rw [habs]
    exact ha
  rw [send_insufficient s f to_a a t hbal]
  refine ⟨rfl, ?_, ?_, rfl⟩
  · dsimp only
    rw [get_or_create_of_absent s.users f t habs]
    exact usersLookup_set_self s.users f _
  · intro n hn
    exact get_or_create_lookup_ne s.users f n t hn

/-- C10 witness: from the fresh state, a send of 5 from the nonexistent
"alice" fails with the insufficient-balance error yet leaves "alice"
persisted with balance 0 and the derived address, with "bob" untouched
and the chain unchanged. -/
theorem c10_sender_created_on_failed_send_witness :
    (send_coins (initState 0) "alice" "bob" 5 1).1
        = ApiResult.insufficientBalance
    ∧ usersLookup (send_coins (initState 0) "alice" "bob" 5 1).2.users "alice"
        = some { address := derive_address "alice" 1, coins := 0 }
    ∧ usersLookup (send_coins (initState 0) "alice" "bob" 5 1).2.users "bob"
        = usersLookup (initState 0).users "bob"
    ∧ (send_coins (initState 0) "alice" "bob" 5 1).2.chain
        = (initState 0).chain := by
  have h := c10_sender_created_on_failed_send (initState 0) "alice" "bob" 5 1
    (by decide) (by decide)
  exact ⟨h.1, h.2.1, h.2.2.1 "bob" (by decide), h.2.2.2⟩
